import Mathlib

/-!
The program gcontrol: directory authentication and group resolution.

A shallow embedding of `gcontrol.go`.  The directory server, reached through
`ldap.Dial`, `Conn.Bind`, `Conn.Search` and `Conn.Close`, is an arbitrary
deterministic state machine over a state type `σ`; `fmt.Sprintf` with one
string operand is a field of the same environment, so that every universally
quantified theorem holds whatever the formatter does with a template.  Each
function returns, next to its Go results, the new backend state and the list
of effects it performed, in program order.
-/

namespace Gcontrol

/-! ## Data model -/

/-- The Go struct `GroupMapping`. -/
structure GroupMapping where
  GroupDn : String
  OrgId : Int
  TeamId : Int
  deriving DecidableEq, Repr

/-- The Go struct `Login`. -/
structure Login where
  User : String
  Password : String
  deriving DecidableEq, Repr

/-- A handle for a `*ldap.Conn` returned by a successful `ldap.Dial`. -/
abbrev LdapConn := Nat

/-- The Go struct `Server`.  `Attributes` is the `map[string]string` as an
association list; `Conn` is the pointer field, `none` for nil. -/
structure Server where
  User : String
  Password : String
  Host : String
  Port : Int
  BindDn : String
  SearchFilter : String
  SearchBaseDns : List String
  GroupMappings : List GroupMapping
  Attributes : List (String × String)
  Conn : Option LdapConn
  deriving DecidableEq, Repr

/-- The part of the Go struct `Config` that `UpdatePermissions` ranges over. -/
structure Config where
  Servers : List Server
  deriving DecidableEq, Repr

/-! ## The go-ldap surface -/

/-- Search scopes of go-ldap (`ScopeBaseObject`, `ScopeSingleLevel`,
`ScopeWholeSubtree`). -/
inductive Scope where
  | ScopeBaseObject
  | ScopeSingleLevel
  | ScopeWholeSubtree
  deriving DecidableEq, Repr

/-- Alias dereferencing modes of go-ldap. -/
inductive DerefAliases where
  | NeverDerefAliases
  | DerefInSearching
  | DerefFindingBaseObj
  | DerefAlways
  deriving DecidableEq, Repr

/-- The go-ldap `SearchRequest`, with the fields in the order of the
arguments of `ldap.NewSearchRequest`. -/
structure SearchRequest where
  BaseDN : String
  Scope : Scope
  DerefAliases : DerefAliases
  SizeLimit : Int
  TimeLimit : Int
  TypesOnly : Bool
  Filter : String
  Attributes : List String
  Controls : List String
  deriving DecidableEq, Repr

/-- The go-ldap `EntryAttribute`: a name and its values. -/
structure EntryAttribute where
  Name : String
  Values : List String
  deriving DecidableEq, Repr

/-- The go-ldap `Entry`. -/
structure Entry where
  DN : String
  Attributes : List EntryAttribute
  deriving DecidableEq, Repr

/-- The go-ldap `SearchResult`, reduced to the entries, the only field the
program reads. -/
structure SearchResult where
  Entries : List Entry
  deriving DecidableEq, Repr

/-- The go-ldap `Entry.GetAttributeValues`: the values of the first attribute
with the given name, or no values. -/
def Entry.GetAttributeValues (e : Entry) (attr : String) : List String :=
  match e.Attributes.find? (fun a => a.Name == attr) with
  | some a => a.Values
  | none => []

/-- The go-ldap `Entry.GetAttributeValue`: the first value of the named
attribute, or the empty string when there is none. -/
def Entry.GetAttributeValue (e : Entry) (attr : String) : String :=
  match e.GetAttributeValues attr with
  | [] => ""
  | v :: _ => v

/-- The go-ldap `NewSearchRequest`: stores its arguments. -/
def NewSearchRequest (baseDN : String) (scope : Scope) (deref : DerefAliases)
    (sizeLimit timeLimit : Int) (typesOnly : Bool) (filter : String)
    (attributes : List String) (controls : List String) : SearchRequest :=
  ⟨baseDN, scope, deref, sizeLimit, timeLimit, typesOnly, filter, attributes, controls⟩

/-! ## Effects -/

/-- An operand of a `log.Printf` call: the program logs strings, lengths and
error values.  A log line is kept as its template and operands. -/
inductive LogArg where
  | str (s : String)
  | int (n : Int)
  | err (e : String)
  deriving DecidableEq, Repr

/-- The outcome of a call that returns a value or a Go `error` (its text). -/
inductive Res (α : Type) where
  | ok (a : α)
  | error (e : String)
  deriving DecidableEq, Repr

/-- One effect of the program on the outside world, with what the world
answered. -/
inductive Event where
  | dial (network address : String) (res : Res LdapConn)
  | bind (c : LdapConn) (dn password : String) (err : Option String)
  | search (c : LdapConn) (req : SearchRequest) (res : Res SearchResult)
  | close (c : LdapConn)
  | log (format : String) (args : List LogArg)
  deriving DecidableEq, Repr

/-- The collaborators outside the repository: `fmt.Sprintf` applied to a
template and one string operand, and the directory backend behind go-ldap,
a deterministic machine over the state `σ` that answers every call as it
likes. -/
structure Env (σ : Type) where
  Sprintf : String → String → String
  Dial : σ → String → String → σ × Res LdapConn
  Bind : σ → LdapConn → String → String → σ × Option String
  Search : σ → LdapConn → SearchRequest → σ × Res SearchResult
  Close : σ → LdapConn → σ

/-- The address `fmt.Sprintf("%s:%d", s.Host, s.Port)`: the constant template
puts the host, a colon and the port in decimal. -/
def Server.address (s : Server) : String :=
  s.Host ++ ":" ++ toString s.Port

/-! ## `Server.LdapNew` -/

/-- Results of `LdapNew`: the receiver after the call, the returned error,
the backend state and the effects. -/
structure LdapNewOut (σ : Type) where
  s : Server
  err : Option String
  st : σ
  events : List Event

/-- The method `Server.LdapNew`: dial, bind as `Sprintf(BindDn, User)` with
`Password`, and store the connection in the receiver only after a successful
bind.  A connection whose bind is rejected is neither stored nor closed. -/
def Server.LdapNew {σ : Type} (env : Env σ) (s : Server) (w : σ) : LdapNewOut σ :=
  match env.Dial w "tcp" s.address with
  | (w1, Res.error e) => ⟨s, some e, w1, [Event.dial "tcp" s.address (Res.error e)]⟩
  | (w1, Res.ok conn) =>
    match env.Bind w1 conn (env.Sprintf s.BindDn s.User) s.Password with
    | (w2, some e) =>
      ⟨s, some e, w2,
        [Event.dial "tcp" s.address (Res.ok conn),
         Event.bind conn (env.Sprintf s.BindDn s.User) s.Password (some e)]⟩
    | (w2, none) =>
      ⟨{ s with Conn := some conn }, none, w2,
        [Event.dial "tcp" s.address (Res.ok conn),
         Event.bind conn (env.Sprintf s.BindDn s.User) s.Password none]⟩

/-! ## `Server.GetGroupsOfUser` -/

/-- Results of `GetGroupsOfUser`: the groups, the error, the backend state and
the effects. -/
structure GroupsOut (σ : Type) where
  groups : List String
  err : Option String
  st : σ
  events : List Event

/-- The request `GetGroupsOfUser` builds for one search base. -/
def Server.searchRequest {σ : Type} (env : Env σ) (s : Server) (username base_dn : String) :
    SearchRequest :=
  NewSearchRequest base_dn Scope.ScopeWholeSubtree DerefAliases.NeverDerefAliases
    0 0 false (env.Sprintf s.SearchFilter username) ["memberOf"] []

/-- The `for _, base_dn := range s.SearchBaseDns` loop of `GetGroupsOfUser`
on a non-nil connection, from the groups accumulated so far. -/
def Server.searchLoop {σ : Type} (env : Env σ) (s : Server) (conn : LdapConn) (username : String) :
    List String → List String → σ → GroupsOut σ
  | [], groups, w => ⟨groups, none, w, []⟩
  | base_dn :: rest, groups, w =>
    match env.Search w conn (s.searchRequest env username base_dn) with
    | (w1, Res.error e) =>
      ⟨groups, some e, w1,
        [Event.search conn (s.searchRequest env username base_dn) (Res.error e)]⟩
    | (w1, Res.ok sr) =>
      let r := Server.searchLoop env s conn username rest
        (groups ++ sr.Entries.map (fun entry => entry.GetAttributeValue "memberOf")) w1
      ⟨r.groups, r.err, r.st,
        Event.search conn (s.searchRequest env username base_dn) (Res.ok sr) ::
          Event.log "[debug] len %v" [LogArg.int sr.Entries.length] :: r.events⟩

/-- The method `Server.GetGroupsOfUser`.  `none` is the nil-pointer panic of
`s.Conn.Search` when the receiver has no connection and at least one search
base; with no search base the connection is never touched. -/
def Server.GetGroupsOfUser {σ : Type} (env : Env σ) (s : Server) (username : String) (w : σ) :
    Option (GroupsOut σ) :=
  match s.SearchBaseDns, s.Conn with
  | [], _ => some ⟨[], none, w, []⟩
  | _ :: _, none => none
  | bases, some conn => some (s.searchLoop env conn username bases [] w)

/-- The method `Server.Close`: closes the stored connection; `none` is the
nil-pointer panic on a receiver without connection. -/
def Server.Close {σ : Type} (env : Env σ) (s : Server) (w : σ) : Option (σ × List Event) :=
  match s.Conn with
  | none => none
  | some conn => some (env.Close w conn, [Event.close conn])

/-! ## `Config.UpdatePermissions` -/

/-- Results of one iteration of the loop of `UpdatePermissions`: the
per-iteration copy `lc` as the iteration leaves it, the backend state and
the effects. -/
structure IterOut (σ : Type) where
  lc : Server
  st : σ
  events : List Event

/-- The credential substitution at the head of the loop body, on the copy. -/
def substitute (lc : Server) (user password : String) : Server :=
  if lc.User = "" ∧ lc.Password = "" then { lc with User := user, Password := password } else lc

/-- The body of `for _, lc := range cfg.Servers` in `UpdatePermissions`, on
the copy `lc` of one descriptor.  `none` is a panic. -/
def iteration {σ : Type} (env : Env σ) (user password : String) (lc : Server) (w : σ) :
    Option (IterOut σ) :=
  let lc := substitute lc user password
  let ev0 := [Event.log "[debug] user authenticating %v" [LogArg.str lc.User]]
  let r1 := lc.LdapNew env w
  match r1.err with
  | some e =>
    some ⟨r1.s, r1.st, ev0 ++ r1.events ++ [Event.log "[error] connect ldap: %v" [LogArg.err e]]⟩
  | none =>
    match r1.s.GetGroupsOfUser env user r1.st with
    | none => none
    | some r2 =>
      match r2.err with
      | some e =>
        some ⟨r1.s, r2.st, ev0 ++ r1.events ++ r2.events ++
          [Event.log "[error] get ldap user groups: %v" [LogArg.err e]]⟩
      | none =>
        match r1.s.Close env r2.st with
        | none => none
        | some (w3, ev3) =>
          some ⟨r1.s, w3, ev0 ++ r1.events ++ r2.events ++ ev3 ++
            r2.groups.map (fun attr => Event.log "[debug] %v" [LogArg.str attr])⟩

/-- Results of `UpdatePermissions`: the configuration behind the receiver
pointer after the call, the backend state and the effects. -/
structure UpdateOut (σ : Type) where
  cfg : Config
  st : σ
  events : List Event

/-- The range loop of `UpdatePermissions` over the remaining descriptors:
each iteration works on a copy, which is dropped at the end of the
iteration. -/
def rangeServers {σ : Type} (env : Env σ) (user password : String) :
    List Server → σ → Option (σ × List Event)
  | [], w => some (w, [])
  | lc :: rest, w =>
    match iteration env user password lc w with
    | none => none
    | some r =>
      match rangeServers env user password rest r.st with
      | none => none
      | some (w2, evs) => some (w2, r.events ++ evs)

/-- The method `Config.UpdatePermissions`.  The receiver is a pointer, so the
configuration after the call is a result; no statement of the method writes
through it.  `none` is a panic. -/
def Config.UpdatePermissions {σ : Type} (env : Env σ) (cfg : Config) (user password : String)
    (w : σ) : Option (UpdateOut σ) :=
  match rangeServers env user password cfg.Servers w with
  | none => none
  | some (w2, evs) => some ⟨cfg, w2, evs⟩

/-! ## `Config.ApiLogin` -/

/-- The `http.ResponseWriter` as the handler sees it: the status line, once
written, and the body written so far. -/
structure ResponseWriter where
  status : Option Nat
  body : String
  deriving DecidableEq, Repr

/-- The method `WriteHeader`: the first status written stands. -/
def ResponseWriter.WriteHeader (w : ResponseWriter) (code : Nat) : ResponseWriter :=
  match w.status with
  | none => { w with status := some code }
  | some _ => w

/-- The method `Write`: an unwritten status becomes 200, the bytes are
appended to the body. -/
def ResponseWriter.Write (w : ResponseWriter) (b : String) : ResponseWriter :=
  match w.status with
  | none => ⟨some 200, w.body ++ b⟩
  | some c => ⟨some c, w.body ++ b⟩

/-- The request as the handler reads it: what `ioutil.ReadAll(r.Body)`
returns, and `r.URL.Path`. -/
structure Request where
  Body : Res String
  Path : String
  deriving DecidableEq, Repr

/-- A task started by a `go` statement: a call of `cfg.UpdatePermissions`
with its evaluated operands. -/
structure Task where
  cfg : Config
  user : String
  password : String
  deriving DecidableEq, Repr

/-- Results of `ApiLogin`: the response writer, the tasks started and the
log lines. -/
structure ApiOut where
  w : ResponseWriter
  spawned : List Task
  events : List Event
  deriving DecidableEq, Repr

/-- The method `Config.ApiLogin`.  `Unmarshal` is `json.Unmarshal` into a
`Login`: from the body and the zero `Login{}` it gives the filled value and
the error, if any. -/
def Config.ApiLogin (Unmarshal : String → Login → Login × Option String) (cfg : Config)
    (w : ResponseWriter) (r : Request) : ApiOut :=
  let login : Login := ⟨"", ""⟩
  match r.Body with
  | Res.error err =>
    ⟨(w.WriteHeader 400).Write err, [],
      [Event.log "[error] %v - %s" [LogArg.err err, LogArg.str r.Path]]⟩
  | Res.ok body =>
    match Unmarshal body login with
    | (_, some err) =>
      ⟨(w.WriteHeader 400).Write err, [],
        [Event.log "[error] %v - %s" [LogArg.err err, LogArg.str r.Path]]⟩
    | (login, none) =>
      ⟨w.WriteHeader 204, [⟨cfg, login.User, login.Password⟩], []⟩

/-- The tasks started by a handler, run one after the other on the backend:
the effects of each, or `none` where one panics. -/
def runSpawned {σ : Type} (env : Env σ) : List Task → σ → Option (σ × List Event)
  | [], st => some (st, [])
  | t :: rest, st =>
    match t.cfg.UpdatePermissions env t.user t.password st with
    | none => none
    | some out =>
      match runSpawned env rest out.st with
      | none => none
      | some (st2, evs) => some (st2, out.events ++ evs)

/-! ## A concrete environment

`goSprintf` is `fmt.Sprintf` with one string operand on the templates made of
literal text, `%s`, `%v` and `%%`; the concrete theorems below use no other
template.  `fakeDir` is a directory that counts the dials and keeps the set
of open connections. -/

/-- The scan of `goSprintf` over the template; `used` tells whether the
operand was consumed. -/
def sprintfAux (arg : List Char) : List Char → Bool → List Char
  | [], used => if used then [] else "%!(EXTRA string=".toList ++ arg ++ [')']
  | '%' :: 's' :: rest, used =>
    (if used then "%!s(MISSING)".toList else arg) ++ sprintfAux arg rest true
  | '%' :: 'v' :: rest, used =>
    (if used then "%!v(MISSING)".toList else arg) ++ sprintfAux arg rest true
  | '%' :: '%' :: rest, used => '%' :: sprintfAux arg rest used
  | c :: rest, used => c :: sprintfAux arg rest used

/-- The `fmt.Sprintf(format, a)` of Go for a string operand, on templates of
literal text, `%s`, `%v` and `%%`. -/
def goSprintf (format a : String) : String :=
  String.mk (sprintfAux a.toList format.toList false)

/-- State of the fake directory: the number of dials answered and the
connections open now. -/
structure FakeDir where
  dialed : Nat
  live : List LdapConn
  deriving DecidableEq, Repr

/-- The entries the fake directory holds under every base: user `alice` has
two entries, one with two `memberOf` values and one with none, user `bob` has
one entry with one value, user `carol` has her group under the attribute
`isMemberOf`, anybody else matches nothing. -/
def fakeEntries (base filter : String) : List Entry :=
  if filter = "(uid=alice)" then
    [⟨"uid=alice," ++ base, [⟨"cn", ["alice"]⟩, ⟨"memberOf", ["cn=admins", "cn=staff"]⟩]⟩,
     ⟨"uid=alice2," ++ base, [⟨"cn", ["alice"]⟩]⟩]
  else if filter = "(uid=bob)" then
    [⟨"uid=bob," ++ base, [⟨"memberOf", ["cn=staff"]⟩]⟩]
  else if filter = "(uid=carol)" then
    [⟨"uid=carol," ++ base, [⟨"isMemberOf", ["cn=admins"]⟩]⟩]
  else []

/-- A fake directory: the host `down` refuses connections, the password
`wrong` is rejected, a search under `ou=broken` fails, every other call
succeeds. -/
def fakeDir : Env FakeDir where
  Sprintf := goSprintf
  Dial := fun st _ address =>
    if address = "down:389" then (⟨st.dialed + 1, st.live⟩, Res.error "connection refused")
    else (⟨st.dialed + 1, (st.dialed + 1) :: st.live⟩, Res.ok (st.dialed + 1))
  Bind := fun st _ _ password =>
    if password = "wrong" then (st, some "Invalid Credentials") else (st, none)
  Search := fun st _ req =>
    if req.BaseDN = "ou=broken" then (st, Res.error "No Such Object")
    else (st, Res.ok ⟨fakeEntries req.BaseDN req.Filter⟩)
  Close := fun st c => ⟨st.dialed, st.live.erase c⟩

/-- A descriptor without static credentials and with three search bases, the
second of which fails on the fake directory. -/
def srvBroken : Server :=
  ⟨"", "", "ldap1", 389, "cn=%s,dc=example", "(uid=%s)",
    ["ou=people", "ou=broken", "ou=staff"], [⟨"cn=admins", 1, 2⟩], [("member_of", "memberOf")],
    none⟩

/-- A descriptor without static credentials and with two healthy bases. -/
def srvOk : Server :=
  ⟨"", "", "ldap2", 636, "cn=%s,dc=example", "(uid=%s)",
    ["ou=people", "ou=staff"], [⟨"cn=admins", 1, 2⟩], [("member_of", "memberOf")], none⟩

/-- A descriptor with static override credentials. -/
def srvStatic : Server :=
  ⟨"svc", "svcpw", "ldap3", 389, "cn=%s,dc=example", "(uid=%s)",
    ["ou=people"], [⟨"cn=admins", 1, 2⟩], [("member_of", "isMemberOf")], none⟩

/-- The healthy descriptor once bound on connection 1. -/
def srvOkBound : Server := { srvOk with Conn := some 1 }

/-- The descriptor with the failing second base once bound on connection 1. -/
def srvBrokenBound : Server := { srvBroken with Conn := some 1 }

/-- The fake directory after one dial, with connection 1 open. -/
def fakeOpen : FakeDir := ⟨1, [1]⟩

/-- The descriptor with static credentials once bound on connection 1. -/
def srvStaticBound : Server := { srvStatic with Conn := some 1 }

/-! ## Observations on effect lists -/

/-- The connection attempts among the effects: network and address of every
`ldap.Dial`, in order. -/
def dialAttempts : List Event → List (String × String)
  | [] => []
  | Event.dial network address _ :: rest => (network, address) :: dialAttempts rest
  | _ :: rest => dialAttempts rest

/-- The bind DN and bind password of every `Bind`, in order. -/
def bindCredentials : List Event → List (String × String)
  | [] => []
  | Event.bind _ dn password _ :: rest => (dn, password) :: bindCredentials rest
  | _ :: rest => bindCredentials rest

/-- The connection and request of every `Search`, in order. -/
def searches : List Event → List (LdapConn × SearchRequest)
  | [] => []
  | Event.search c req _ :: rest => (c, req) :: searches rest
  | _ :: rest => searches rest

/-- The filter of every `Search`, in order. -/
def searchFilters (evs : List Event) : List String :=
  (searches evs).map (fun p => p.2.Filter)

/-- The connections that were dialled and then bound with success. -/
def boundConns : List Event → List LdapConn
  | [] => []
  | Event.bind c _ _ none :: rest => c :: boundConns rest
  | _ :: rest => boundConns rest

/-- The number of `Close` calls on a connection. -/
def closeCount (c : LdapConn) : List Event → Nat
  | [] => 0
  | Event.close d :: rest => (if d = c then 1 else 0) + closeCount c rest
  | _ :: rest => closeCount c rest

/-- The answers of the backend to a sequence of searches on one connection,
asked one after the other from the state `w`. -/
def answers {σ : Type} (env : Env σ) (conn : LdapConn) : List SearchRequest → σ →
    List (Res SearchResult)
  | [], _ => []
  | req :: rest, w => (env.Search w conn req).2 :: answers env conn rest (env.Search w conn req).1

/-- The entries of an answer, none for an error. -/
def Res.entries : Res SearchResult → List Entry
  | Res.ok sr => sr.Entries
  | Res.error _ => []

/-- One string per entry of every answer, in answer order and then entry
order: the value `GetAttributeValue` reads for `memberOf`. -/
def collect : List (Res SearchResult) → List String
  | [] => []
  | a :: rest => a.entries.map (fun entry => entry.GetAttributeValue "memberOf") ++ collect rest

/-- The string the specification gives for a list of attributes: the first
value of the first attribute named `memberOf`, or the empty string when no
attribute has that name or that attribute has no value. -/
def firstMemberOfIn : List EntryAttribute → String
  | [] => ""
  | a :: rest =>
    if a.Name = "memberOf" then
      (match a.Values with
       | [] => ""
       | v :: _ => v)
    else firstMemberOfIn rest

/-- The string the specification gives for an entry: its first `memberOf`
value, or the empty string when it has none.  Stated on the attribute list,
without the accessors of go-ldap. -/
def firstMemberOf (e : Entry) : String :=
  firstMemberOfIn e.Attributes

/-- The request the specification describes for a search base and a filter:
the whole subtree under the base, aliases never dereferenced, no size or time
limit, values and not only types, and the one attribute `memberOf`.  Stated
field by field, without `NewSearchRequest`. -/
def subtreeRequest (base filter : String) : SearchRequest where
  BaseDN := base
  Scope := Scope.ScopeWholeSubtree
  DerefAliases := DerefAliases.NeverDerefAliases
  SizeLimit := 0
  TimeLimit := 0
  TypesOnly := false
  Filter := filter
  Attributes := ["memberOf"]
  Controls := []

/-- The total number of entries of a list of answers. -/
def entryCount : List (Res SearchResult) → Nat
  | [] => 0
  | a :: rest => a.entries.length + entryCount rest

/-- The effects of an iteration, none where it panics. -/
def effects {σ : Type} (r : Option (IterOut σ)) : List Event :=
  match r with
  | some out => out.events
  | none => []

/-- The translation the specification describes: the (organization, team)
pairs of the mappings whose group identifier is among the resolved groups. -/
def mappedPairs (groups : List String) (mappings : List GroupMapping) : List (Int × Int) :=
  (mappings.filter (fun m => groups.contains m.GroupDn)).map (fun m => (m.OrgId, m.TeamId))

/-- Whether a call succeeded. -/
def Res.isOk {α : Type} : Res α → Bool
  | Res.ok _ => true
  | Res.error _ => false

/-- The effects of a run of `UpdatePermissions`, none where it panics. -/
def runEffects {σ : Type} (r : Option (UpdateOut σ)) : List Event :=
  match r with
  | some out => out.events
  | none => []

/-- The handler followed by the tasks it started, in the schedule where they
run after the handler has returned: the response, and the outcome of the
tasks on the backend. -/
def serveLogin {σ : Type} (env : Env σ) (Unmarshal : String → Login → Login × Option String)
    (cfg : Config) (r : Request) (st : σ) : ResponseWriter × Option (σ × List Event) :=
  ((cfg.ApiLogin Unmarshal ⟨none, ""⟩ r).w,
    runSpawned env (cfg.ApiLogin Unmarshal ⟨none, ""⟩ r).spawned st)

/-- The log lines among the effects: template and operands, in order. -/
def logLines : List Event → List (String × List LogArg)
  | [] => []
  | Event.log format args :: rest => (format, args) :: logLines rest
  | _ :: rest => logLines rest

/-- The error `ApiLogin` meets before it starts anything: the error of
reading the body, else the error of decoding it, else none. -/
def payloadError (Unmarshal : String → Login → Login × Option String) (r : Request) :
    Option String :=
  match r.Body with
  | Res.error e => some e
  | Res.ok body => (Unmarshal body ⟨"", ""⟩).2

/-! ## Lemmas on `searchLoop` -/

section Lemmas

variable {σ : Type} (env : Env σ)

theorem collect_length (l : List (Res SearchResult)) : (collect l).length = entryCount l := by
  induction l with
  | nil => rfl
  | cons a rest ih => simp [collect, entryCount, ih]

theorem searchLoop_all_ok (s : Server) (conn : LdapConn) (username : String) :
    ∀ (bases groups : List String) (w : σ),
      (∀ a ∈ answers env conn (bases.map (s.searchRequest env username)) w, a.isOk = true) →
      (s.searchLoop env conn username bases groups w).err = none ∧
      (s.searchLoop env conn username bases groups w).groups =
        groups ++ collect (answers env conn (bases.map (s.searchRequest env username)) w) ∧
      searches (s.searchLoop env conn username bases groups w).events =
        bases.map (fun b => (conn, s.searchRequest env username b)) := by
  intro bases
  induction bases with
  | nil => intro groups w _; simp [Server.searchLoop, answers, collect, searches]
  | cons b rest ih =>
    intro groups w h
    cases hS : env.Search w conn (s.searchRequest env username b) with
    | mk w1 a =>
      have h0 : a.isOk = true := h a (by simp [answers, hS])
      cases a with
      | error e => simp [Res.isOk] at h0
      | ok sr =>
        obtain ⟨h1, h2, h3⟩ := ih
          (groups ++ sr.Entries.map (fun entry => entry.GetAttributeValue "memberOf")) w1
          (fun a ha => h a (by simp [answers, hS, ha]))
        simp [Server.searchLoop, hS, answers, collect, searches, Res.entries, h1, h2, h3]

theorem searchLoop_first_fail (s : Server) (conn : LdapConn) (username : String) :
    ∀ (bases groups : List String) (w : σ) (i : Nat) (e : String),
      (answers env conn (bases.map (s.searchRequest env username)) w)[i]? = some (Res.error e) →
      (∀ a ∈ (answers env conn (bases.map (s.searchRequest env username)) w).take i,
        a.isOk = true) →
      (s.searchLoop env conn username bases groups w).err = some e ∧
      (s.searchLoop env conn username bases groups w).groups =
        groups ++ collect ((answers env conn (bases.map (s.searchRequest env username)) w).take i) ∧
      searches (s.searchLoop env conn username bases groups w).events =
        (bases.take (i + 1)).map (fun b => (conn, s.searchRequest env username b)) := by
  intro bases
  induction bases with
  | nil => intro groups w i e h; simp [answers] at h
  | cons b rest ih =>
    intro groups w i e hfail hprev
    cases hS : env.Search w conn (s.searchRequest env username b) with
    | mk w1 a =>
      cases i with
      | zero =>
        simp [answers, hS] at hfail
        subst hfail
        simp [Server.searchLoop, hS, collect, searches]
      | succ k =>
        have h0 : a.isOk = true := hprev a (by simp [answers, hS])
        cases a with
        | error e2 => simp [Res.isOk] at h0
        | ok sr =>
          have hfail2 : (answers env conn (rest.map (s.searchRequest env username)) w1)[k]? =
              some (Res.error e) := by
            simpa [answers, hS] using hfail
          obtain ⟨h1, h2, h3⟩ := ih
            (groups ++ sr.Entries.map (fun entry => entry.GetAttributeValue "memberOf")) w1 k e
            hfail2 (fun a ha => hprev a (by simp [answers, hS, ha]))
          simp [Server.searchLoop, hS, answers, collect, searches, Res.entries, h1, h2, h3]

theorem searchLoop_no_dial (s : Server) (conn : LdapConn) (username : String) :
    ∀ (bases groups : List String) (w : σ),
      dialAttempts (s.searchLoop env conn username bases groups w).events = [] ∧
      bindCredentials (s.searchLoop env conn username bases groups w).events = [] ∧
      closeCount conn (s.searchLoop env conn username bases groups w).events = 0 := by
  intro bases
  induction bases with
  | nil => intro groups w; simp [Server.searchLoop, dialAttempts, bindCredentials, closeCount]
  | cons b rest ih =>
    intro groups w
    cases hS : env.Search w conn (s.searchRequest env username b) with
    | mk w1 a =>
      cases a with
      | error e => simp [Server.searchLoop, hS, dialAttempts, bindCredentials, closeCount]
      | ok sr =>
        obtain ⟨h1, h2, h3⟩ := ih
          (groups ++ sr.Entries.map (fun entry => entry.GetAttributeValue "memberOf")) w1
        simp [Server.searchLoop, hS, dialAttempts, bindCredentials, closeCount, h1, h2, h3]

theorem searchLoop_filters (s : Server) (conn : LdapConn) (username : String) :
    ∀ (bases groups : List String) (w : σ),
      ∀ p ∈ searches (s.searchLoop env conn username bases groups w).events,
        ∃ b ∈ bases, p = (conn, s.searchRequest env username b) := by
  intro bases
  induction bases with
  | nil => intro groups w p hp; simp [Server.searchLoop, searches] at hp
  | cons b rest ih =>
    intro groups w p hp
    cases hS : env.Search w conn (s.searchRequest env username b) with
    | mk w1 a =>
      cases a with
      | error e =>
        simp [Server.searchLoop, hS, searches] at hp
        exact ⟨b, by simp, hp⟩
      | ok sr =>
        simp [Server.searchLoop, hS, searches] at hp
        rcases hp with hp | hp
        · exact ⟨b, by simp, hp⟩
        · obtain ⟨b2, hb2, h2⟩ := ih _ _ p hp
          exact ⟨b2, by simp [hb2], h2⟩

/-! ## Lemmas on observations -/

theorem dialAttempts_append (l1 l2 : List Event) :
    dialAttempts (l1 ++ l2) = dialAttempts l1 ++ dialAttempts l2 := by
  induction l1 with
  | nil => rfl
  | cons e rest ih => cases e <;> simp [dialAttempts, ih]

theorem bindCredentials_append (l1 l2 : List Event) :
    bindCredentials (l1 ++ l2) = bindCredentials l1 ++ bindCredentials l2 := by
  induction l1 with
  | nil => rfl
  | cons e rest ih => cases e <;> simp [bindCredentials, ih]

theorem searches_append (l1 l2 : List Event) :
    searches (l1 ++ l2) = searches l1 ++ searches l2 := by
  induction l1 with
  | nil => rfl
  | cons e rest ih => cases e <;> simp [searches, ih]

theorem closeCount_append (c : LdapConn) (l1 l2 : List Event) :
    closeCount c (l1 ++ l2) = closeCount c l1 + closeCount c l2 := by
  induction l1 with
  | nil => simp [closeCount]
  | cons e rest ih => cases e <;> simp [closeCount, ih, Nat.add_assoc]

theorem observe_logs (c : LdapConn) (groups : List String) :
    dialAttempts (groups.map (fun attr => Event.log "[debug] %v" [LogArg.str attr])) = [] ∧
    bindCredentials (groups.map (fun attr => Event.log "[debug] %v" [LogArg.str attr])) = [] ∧
    searches (groups.map (fun attr => Event.log "[debug] %v" [LogArg.str attr])) = [] ∧
    closeCount c (groups.map (fun attr => Event.log "[debug] %v" [LogArg.str attr])) = 0 := by
  induction groups with
  | nil => simp [dialAttempts, bindCredentials, searches, closeCount]
  | cons g rest ih => simp [dialAttempts, bindCredentials, searches, closeCount, ih]

/-! ## Lemmas on the loop body -/

theorem substitute_address (lc : Server) (user password : String) :
    (substitute lc user password).address = lc.address := by
  unfold substitute
  split <;> rfl

theorem GetGroupsOfUser_bound (s : Server) (conn : LdapConn) (username : String) (w : σ)
    (h : s.Conn = some conn) :
    s.GetGroupsOfUser env username w =
      some (s.searchLoop env conn username s.SearchBaseDns [] w) := by
  unfold Server.GetGroupsOfUser
  cases hb : s.SearchBaseDns with
  | nil => simp [h, Server.searchLoop]
  | cons b rest => simp [h]

theorem LdapNew_dial_error (s : Server) (w w1 : σ) (e : String)
    (hD : env.Dial w "tcp" s.address = (w1, Res.error e)) :
    s.LdapNew env w = ⟨s, some e, w1, [Event.dial "tcp" s.address (Res.error e)]⟩ := by
  simp [Server.LdapNew, hD]

theorem LdapNew_bind_error (s : Server) (w w1 w2 : σ) (conn : LdapConn) (e : String)
    (hD : env.Dial w "tcp" s.address = (w1, Res.ok conn))
    (hB : env.Bind w1 conn (env.Sprintf s.BindDn s.User) s.Password = (w2, some e)) :
    s.LdapNew env w = ⟨s, some e, w2,
      [Event.dial "tcp" s.address (Res.ok conn),
       Event.bind conn (env.Sprintf s.BindDn s.User) s.Password (some e)]⟩ := by
  simp [Server.LdapNew, hD, hB]

theorem LdapNew_bound (s : Server) (w w1 w2 : σ) (conn : LdapConn)
    (hD : env.Dial w "tcp" s.address = (w1, Res.ok conn))
    (hB : env.Bind w1 conn (env.Sprintf s.BindDn s.User) s.Password = (w2, none)) :
    s.LdapNew env w = ⟨{ s with Conn := some conn }, none, w2,
      [Event.dial "tcp" s.address (Res.ok conn),
       Event.bind conn (env.Sprintf s.BindDn s.User) s.Password none]⟩ := by
  simp [Server.LdapNew, hD, hB]

/-- The four ways through the loop body: the dial fails, the bind is
rejected, a search fails, or the resolution succeeds. -/
theorem iteration_shape (user password : String) (lc : Server) (w : σ) :
    (∃ w1 e, env.Dial w "tcp" lc.address = (w1, Res.error e) ∧
      iteration env user password lc w = some ⟨substitute lc user password, w1,
        [Event.log "[debug] user authenticating %v" [LogArg.str (substitute lc user password).User],
         Event.dial "tcp" lc.address (Res.error e),
         Event.log "[error] connect ldap: %v" [LogArg.err e]]⟩) ∨
    (∃ w1 conn w2 e, env.Dial w "tcp" lc.address = (w1, Res.ok conn) ∧
      env.Bind w1 conn
        (env.Sprintf (substitute lc user password).BindDn (substitute lc user password).User)
        (substitute lc user password).Password = (w2, some e) ∧
      iteration env user password lc w = some ⟨substitute lc user password, w2,
        [Event.log "[debug] user authenticating %v" [LogArg.str (substitute lc user password).User],
         Event.dial "tcp" lc.address (Res.ok conn),
         Event.bind conn
           (env.Sprintf (substitute lc user password).BindDn (substitute lc user password).User)
           (substitute lc user password).Password (some e),
         Event.log "[error] connect ldap: %v" [LogArg.err e]]⟩) ∨
    (∃ w1 conn w2 e g, env.Dial w "tcp" lc.address = (w1, Res.ok conn) ∧
      env.Bind w1 conn
        (env.Sprintf (substitute lc user password).BindDn (substitute lc user password).User)
        (substitute lc user password).Password = (w2, none) ∧
      g = Server.searchLoop env { substitute lc user password with Conn := some conn } conn user
        (substitute lc user password).SearchBaseDns [] w2 ∧
      g.err = some e ∧
      iteration env user password lc w =
        some ⟨{ substitute lc user password with Conn := some conn }, g.st,
          [Event.log "[debug] user authenticating %v"
             [LogArg.str (substitute lc user password).User],
           Event.dial "tcp" lc.address (Res.ok conn),
           Event.bind conn
             (env.Sprintf (substitute lc user password).BindDn (substitute lc user password).User)
             (substitute lc user password).Password none] ++ g.events ++
          [Event.log "[error] get ldap user groups: %v" [LogArg.err e]]⟩) ∨
    (∃ w1 conn w2 g, env.Dial w "tcp" lc.address = (w1, Res.ok conn) ∧
      env.Bind w1 conn
        (env.Sprintf (substitute lc user password).BindDn (substitute lc user password).User)
        (substitute lc user password).Password = (w2, none) ∧
      g = Server.searchLoop env { substitute lc user password with Conn := some conn } conn user
        (substitute lc user password).SearchBaseDns [] w2 ∧
      g.err = none ∧
      iteration env user password lc w =
        some ⟨{ substitute lc user password with Conn := some conn }, env.Close g.st conn,
          [Event.log "[debug] user authenticating %v"
             [LogArg.str (substitute lc user password).User],
           Event.dial "tcp" lc.address (Res.ok conn),
           Event.bind conn
             (env.Sprintf (substitute lc user password).BindDn (substitute lc user password).User)
             (substitute lc user password).Password none] ++ g.events ++
          [Event.close conn] ++
          g.groups.map (fun attr => Event.log "[debug] %v" [LogArg.str attr])⟩) := by
  have ha := substitute_address lc user password
  cases hD : env.Dial w "tcp" lc.address with
  | mk w1 d =>
    cases d with
    | error e =>
      left
      refine ⟨w1, e, rfl, ?_⟩
      have hL := LdapNew_dial_error env (substitute lc user password) w w1 e (by rw [ha]; exact hD)
      simp [iteration, hL, ha]
    | ok conn =>
      right
      cases hB : env.Bind w1 conn
          (env.Sprintf (substitute lc user password).BindDn (substitute lc user password).User)
          (substitute lc user password).Password with
      | mk w2 b =>
        cases b with
        | some e =>
          left
          refine ⟨w1, conn, w2, e, rfl, hB, ?_⟩
          have hL := LdapNew_bind_error env (substitute lc user password) w w1 w2 conn e
            (by rw [ha]; exact hD) hB
          simp [iteration, hL, ha]
        | none =>
          right
          have hL := LdapNew_bound env (substitute lc user password) w w1 w2 conn
            (by rw [ha]; exact hD) hB
          have hG := GetGroupsOfUser_bound env
            { substitute lc user password with Conn := some conn } conn user w2 rfl
          cases hE : (Server.searchLoop env
              { substitute lc user password with Conn := some conn } conn user
              (substitute lc user password).SearchBaseDns [] w2).err with
          | some e =>
            left
            refine ⟨w1, conn, w2, e, _, rfl, hB, rfl, hE, ?_⟩
            simp [iteration, hL, hG, hE, ha]
          | none =>
            right
            refine ⟨w1, conn, w2, _, rfl, hB, rfl, hE, ?_⟩
            simp [iteration, hL, hG, hE, ha, Server.Close]

theorem iteration_dials (user password : String) (lc : Server) (w : σ) :
    ∃ r, iteration env user password lc w = some r ∧
      dialAttempts r.events = [("tcp", lc.address)] := by
  rcases iteration_shape env user password lc w with
    ⟨w1, e, _, h⟩ | ⟨w1, conn, w2, e, _, _, h⟩ | ⟨w1, conn, w2, e, g, _, _, hg, _, h⟩ |
    ⟨w1, conn, w2, g, _, _, hg, _, h⟩
  · exact ⟨_, h, by simp [dialAttempts]⟩
  · exact ⟨_, h, by simp [dialAttempts]⟩
  · refine ⟨_, h, ?_⟩
    have hs := (searchLoop_no_dial env { substitute lc user password with Conn := some conn }
      conn user (substitute lc user password).SearchBaseDns [] w2).1
    rw [← hg] at hs
    simp [dialAttempts, dialAttempts_append, hs]
  · refine ⟨_, h, ?_⟩
    have hs := (searchLoop_no_dial env { substitute lc user password with Conn := some conn }
      conn user (substitute lc user password).SearchBaseDns [] w2).1
    rw [← hg] at hs
    simp [dialAttempts, dialAttempts_append, hs, (observe_logs conn g.groups).1]

theorem rangeServers_dials (user password : String) :
    ∀ (servers : List Server) (w : σ), ∃ w2 evs rs,
      rangeServers env user password servers w = some (w2, evs) ∧
      dialAttempts evs = servers.map (fun s => ("tcp", s.address)) ∧
      List.Forall₂ (fun s r => ∃ w0, iteration env user password s w0 = some r) servers rs ∧
      evs = (rs.map (fun r => r.events)).flatten := by
  intro servers
  induction servers with
  | nil => intro w; exact ⟨w, [], [], rfl, rfl, List.Forall₂.nil, rfl⟩
  | cons lc rest ih =>
    intro w
    obtain ⟨r, hr, hd⟩ := iteration_dials env user password lc w
    obtain ⟨w2, evs, rs, h1, h2, h3, h4⟩ := ih r.st
    refine ⟨w2, r.events ++ evs, r :: rs, ?_, ?_, List.Forall₂.cons ⟨w, hr⟩ h3, ?_⟩
    · simp [rangeServers, hr, h1]
    · simp [dialAttempts_append, hd, h2]
    · simp [h4]

theorem iteration_dial_error (user password : String) (lc lc2 : Server) (w w1 : σ) (e : String)
    (hsub : substitute lc user password = lc2)
    (hD : env.Dial w "tcp" lc2.address = (w1, Res.error e)) :
    iteration env user password lc w = some ⟨lc2, w1,
      [Event.log "[debug] user authenticating %v" [LogArg.str lc2.User],
       Event.dial "tcp" lc2.address (Res.error e),
       Event.log "[error] connect ldap: %v" [LogArg.err e]]⟩ := by
  subst hsub
  have hL := LdapNew_dial_error env (substitute lc user password) w w1 e hD
  simp [iteration, hL]

theorem iteration_bind_error (user password : String) (lc lc2 : Server) (w w1 w2 : σ)
    (conn : LdapConn) (e : String) (hsub : substitute lc user password = lc2)
    (hD : env.Dial w "tcp" lc2.address = (w1, Res.ok conn))
    (hB : env.Bind w1 conn (env.Sprintf lc2.BindDn lc2.User) lc2.Password = (w2, some e)) :
    iteration env user password lc w = some ⟨lc2, w2,
      [Event.log "[debug] user authenticating %v" [LogArg.str lc2.User],
       Event.dial "tcp" lc2.address (Res.ok conn),
       Event.bind conn (env.Sprintf lc2.BindDn lc2.User) lc2.Password (some e),
       Event.log "[error] connect ldap: %v" [LogArg.err e]]⟩ := by
  subst hsub
  have hL := LdapNew_bind_error env (substitute lc user password) w w1 w2 conn e hD hB
  simp [iteration, hL]

theorem iteration_search_error (user password : String) (lc lc2 : Server) (w w1 w2 : σ)
    (conn : LdapConn) (e : String) (g : GroupsOut σ) (hsub : substitute lc user password = lc2)
    (hD : env.Dial w "tcp" lc2.address = (w1, Res.ok conn))
    (hB : env.Bind w1 conn (env.Sprintf lc2.BindDn lc2.User) lc2.Password = (w2, none))
    (hg : Server.searchLoop env { lc2 with Conn := some conn } conn user lc2.SearchBaseDns [] w2 = g)
    (hE : g.err = some e) :
    iteration env user password lc w = some ⟨{ lc2 with Conn := some conn }, g.st,
      [Event.log "[debug] user authenticating %v" [LogArg.str lc2.User],
       Event.dial "tcp" lc2.address (Res.ok conn),
       Event.bind conn (env.Sprintf lc2.BindDn lc2.User) lc2.Password none] ++ g.events ++
      [Event.log "[error] get ldap user groups: %v" [LogArg.err e]]⟩ := by
  subst hsub
  subst hg
  have hL := LdapNew_bound env (substitute lc user password) w w1 w2 conn hD hB
  have hG := GetGroupsOfUser_bound env
    { substitute lc user password with Conn := some conn } conn user w2 rfl
  simp [iteration, hL, hG, hE]

theorem iteration_success (user password : String) (lc lc2 : Server) (w w1 w2 : σ)
    (conn : LdapConn) (g : GroupsOut σ) (hsub : substitute lc user password = lc2)
    (hD : env.Dial w "tcp" lc2.address = (w1, Res.ok conn))
    (hB : env.Bind w1 conn (env.Sprintf lc2.BindDn lc2.User) lc2.Password = (w2, none))
    (hg : Server.searchLoop env { lc2 with Conn := some conn } conn user lc2.SearchBaseDns [] w2 = g)
    (hE : g.err = none) :
    iteration env user password lc w = some ⟨{ lc2 with Conn := some conn }, env.Close g.st conn,
      [Event.log "[debug] user authenticating %v" [LogArg.str lc2.User],
       Event.dial "tcp" lc2.address (Res.ok conn),
       Event.bind conn (env.Sprintf lc2.BindDn lc2.User) lc2.Password none] ++ g.events ++
      [Event.close conn] ++
      g.groups.map (fun attr => Event.log "[debug] %v" [LogArg.str attr])⟩ := by
  subst hsub
  subst hg
  have hL := LdapNew_bound env (substitute lc user password) w w1 w2 conn hD hB
  have hG := GetGroupsOfUser_bound env
    { substitute lc user password with Conn := some conn } conn user w2 rfl
  simp [iteration, hL, hG, hE, Server.Close]

theorem searchLoop_congr (s s2 : Server) (conn : LdapConn) (username : String)
    (h : s.SearchFilter = s2.SearchFilter) :
    ∀ (bases groups : List String) (w : σ),
      s.searchLoop env conn username bases groups w =
        s2.searchLoop env conn username bases groups w := by
  have hr : ∀ b, s.searchRequest env username b = s2.searchRequest env username b := by
    intro b; simp [Server.searchRequest, h]
  intro bases
  induction bases with
  | nil => intro groups w; simp [Server.searchLoop]
  | cons b rest ih => intro groups w; simp [Server.searchLoop, hr, ih]

theorem substitute_fields (lc : Server) (user password : String) :
    (substitute lc user password).BindDn = lc.BindDn ∧
    (substitute lc user password).SearchFilter = lc.SearchFilter ∧
    (substitute lc user password).SearchBaseDns = lc.SearchBaseDns ∧
    (substitute lc user password).GroupMappings = lc.GroupMappings ∧
    (substitute lc user password).Attributes = lc.Attributes ∧
    (substitute lc user password).Conn = lc.Conn ∧
    (substitute lc user password).Host = lc.Host ∧
    (substitute lc user password).Port = lc.Port := by
  unfold substitute
  split <;> simp

theorem substitute_empty (lc : Server) (user password : String)
    (h : lc.User = "" ∧ lc.Password = "") :
    (substitute lc user password).User = user ∧
    (substitute lc user password).Password = password := by
  simp [substitute, h]

theorem substitute_static (lc : Server) (user password : String)
    (h : ¬ (lc.User = "" ∧ lc.Password = "")) :
    substitute lc user password = lc := by
  simp [substitute, h]

theorem iteration_binds (user password : String) (lc : Server) (w : σ) :
    ∃ r, iteration env user password lc w = some r ∧
      r.lc.User = (substitute lc user password).User ∧
      r.lc.Password = (substitute lc user password).Password ∧
      (∀ c, (env.Dial w "tcp" lc.address).2 = Res.ok c →
        bindCredentials r.events =
          [(env.Sprintf lc.BindDn (substitute lc user password).User,
            (substitute lc user password).Password)]) ∧
      (∀ e, (env.Dial w "tcp" lc.address).2 = Res.error e → bindCredentials r.events = []) ∧
      (∀ p ∈ searches r.events, p.2.Filter = env.Sprintf lc.SearchFilter user) := by
  obtain ⟨hf1, hf2, _⟩ := substitute_fields lc user password
  rcases iteration_shape env user password lc w with
    ⟨w1, e, hD, h⟩ | ⟨w1, conn, w2, e, hD, _, h⟩ | ⟨w1, conn, w2, e, g, hD, _, hg, _, h⟩ |
    ⟨w1, conn, w2, g, hD, _, hg, _, h⟩
  · exact ⟨_, h, rfl, rfl, by simp [hD], by simp [hD, bindCredentials],
      by simp [searches]⟩
  · exact ⟨_, h, rfl, rfl, by simp [hD, bindCredentials, hf1], by simp [hD],
      by simp [searches]⟩
  · have hs := searchLoop_no_dial env { substitute lc user password with Conn := some conn }
      conn user (substitute lc user password).SearchBaseDns [] w2
    have hq := searchLoop_filters env { substitute lc user password with Conn := some conn }
      conn user (substitute lc user password).SearchBaseDns [] w2
    rw [← hg] at hs hq
    refine ⟨_, h, rfl, rfl, by simp [hD, bindCredentials, bindCredentials_append, hs.2.1, hf1],
      by simp [hD], ?_⟩
    intro p hp
    have hp2 : p ∈ searches g.events := by simpa [searches, searches_append] using hp
    obtain ⟨b, _, hb⟩ := hq p hp2
    subst hb
    simp [Server.searchRequest, NewSearchRequest, hf2]
  · have hs := searchLoop_no_dial env { substitute lc user password with Conn := some conn }
      conn user (substitute lc user password).SearchBaseDns [] w2
    have hq := searchLoop_filters env { substitute lc user password with Conn := some conn }
      conn user (substitute lc user password).SearchBaseDns [] w2
    rw [← hg] at hs hq
    have hl := observe_logs conn g.groups
    refine ⟨_, h, rfl, rfl,
      by simp [hD, bindCredentials, bindCredentials_append, hs.2.1, hf1, hl.2.1],
      by simp [hD], ?_⟩
    intro p hp
    have hp2 : p ∈ searches g.events := by
      simpa [searches, searches_append, hl.2.2.1] using hp
    obtain ⟨b, _, hb⟩ := hq p hp2
    subst hb
    simp [Server.searchRequest, NewSearchRequest, hf2]

theorem searchLoop_groups (s : Server) (conn : LdapConn) (username : String) :
    ∀ (bases groups : List String) (w : σ),
      (s.searchLoop env conn username bases groups w).groups =
        groups ++ collect
          ((answers env conn (bases.map (s.searchRequest env username)) w).takeWhile Res.isOk) := by
  intro bases
  induction bases with
  | nil => intro groups w; simp [Server.searchLoop, answers, collect]
  | cons b rest ih =>
    intro groups w
    cases hS : env.Search w conn (s.searchRequest env username b) with
    | mk w1 a =>
      cases a with
      | error e => simp [Server.searchLoop, hS, answers, collect, Res.isOk, List.takeWhile]
      | ok sr =>
        simp [Server.searchLoop, hS, answers, collect, Res.isOk, List.takeWhile, Res.entries, ih]

/-- Within one run of the loop body, a bound connection is closed once when
every search succeeds and not at all when a search fails. -/
theorem iteration_close_count (user password : String) (lc : Server) (w w1 w2 : σ)
    (conn : LdapConn)
    (hD : env.Dial w "tcp" lc.address = (w1, Res.ok conn))
    (hB : env.Bind w1 conn
      (env.Sprintf (substitute lc user password).BindDn (substitute lc user password).User)
      (substitute lc user password).Password = (w2, none)) :
    ∃ r, iteration env user password lc w = some r ∧ boundConns r.events = [conn] ∧
      ((Server.searchLoop env { substitute lc user password with Conn := some conn } conn user
          (substitute lc user password).SearchBaseDns [] w2).err = none →
        closeCount conn r.events = 1) ∧
      (∀ e, (Server.searchLoop env { substitute lc user password with Conn := some conn } conn
          user (substitute lc user password).SearchBaseDns [] w2).err = some e →
        closeCount conn r.events = 0) := by
  have ha := substitute_address lc user password
  have hs := searchLoop_no_dial env { substitute lc user password with Conn := some conn }
    conn user (substitute lc user password).SearchBaseDns [] w2
  have hbc : ∀ (bases groups : List String) (w0 : σ),
      boundConns (Server.searchLoop env { substitute lc user password with Conn := some conn }
        conn user bases groups w0).events = [] := by
    intro bases
    induction bases with
    | nil => intro groups w0; simp [Server.searchLoop, boundConns]
    | cons b rest ih =>
      intro groups w0
      cases hS : env.Search w0 conn
          (Server.searchRequest env { substitute lc user password with Conn := some conn }
            user b) with
      | mk w3 a =>
        cases a with
        | error e => simp [Server.searchLoop, hS, boundConns]
        | ok sr => simp [Server.searchLoop, hS, boundConns, ih]
  have hba : ∀ l1 l2 : List Event, boundConns (l1 ++ l2) = boundConns l1 ++ boundConns l2 := by
    intro l1 l2
    induction l1 with
    | nil => rfl
    | cons x rest ih =>
      cases x with
      | bind c dn pw err => cases err <;> simp [boundConns, ih]
      | dial n a r => simp [boundConns, ih]
      | search c q r => simp [boundConns, ih]
      | close c => simp [boundConns, ih]
      | log f a => simp [boundConns, ih]
  have hbl : ∀ gs : List String,
      boundConns (gs.map (fun attr => Event.log "[debug] %v" [LogArg.str attr])) = [] := by
    intro gs
    induction gs with
    | nil => rfl
    | cons x rest ih => simp [boundConns, ih]
  cases hE : (Server.searchLoop env { substitute lc user password with Conn := some conn } conn
      user (substitute lc user password).SearchBaseDns [] w2).err with
  | some e =>
    have h := iteration_search_error env user password lc _ w w1 w2 conn e _ rfl
      (by rw [ha]; exact hD) hB rfl hE
    refine ⟨_, h, ?_, ?_, ?_⟩
    · simp [boundConns, hba, hbc]
    · intro hn; simp at hn
    · intro e2 _
      simp [closeCount, closeCount_append, hs.2.2]
  | none =>
    have h := iteration_success env user password lc _ w w1 w2 conn _ rfl
      (by rw [ha]; exact hD) hB rfl hE
    refine ⟨_, h, ?_, ?_, ?_⟩
    · simp [boundConns, hba, hbc, hbl]
    · intro _
      simp [closeCount, closeCount_append, hs.2.2, (observe_logs conn _).2.2.2]
    · intro e2 hn; simp at hn

theorem substitute_mappings (lc : Server) (user password : String) (m : List GroupMapping) :
    substitute { lc with GroupMappings := m } user password =
      { substitute lc user password with GroupMappings := m } := by
  unfold substitute
  by_cases h : lc.User = "" ∧ lc.Password = "" <;> simp [h]

/-- The loop body never reads `GroupMappings`: with any other table it
performs the same effects and leaves the backend in the same state. -/
theorem iteration_mappings (user password : String) (lc : Server) (w : σ)
    (m : List GroupMapping) :
    ∃ r r2, iteration env user password lc w = some r ∧
      iteration env user password { lc with GroupMappings := m } w = some r2 ∧
      r2.events = r.events ∧ r2.st = r.st := by
  have hm := substitute_mappings lc user password m
  have ha := substitute_address lc user password
  obtain ⟨_, _, _, _, _, _, hH, hPt⟩ := substitute_fields lc user password
  rcases iteration_shape env user password lc w with
    ⟨w1, e, hD, h⟩ | ⟨w1, conn, w2, e, hD, hB, h⟩ | ⟨w1, conn, w2, e, g, hD, hB, hg, hE, h⟩ |
    ⟨w1, conn, w2, g, hD, hB, hg, hE, h⟩
  · have h2 := iteration_dial_error env user password { lc with GroupMappings := m } _ w w1 e hm
      (by rw [← hD, ← ha]; rfl)
    exact ⟨_, _, h, h2, by simp [Server.address, hH, hPt], rfl⟩
  · have h2 := iteration_bind_error env user password { lc with GroupMappings := m } _ w w1 w2
      conn e hm (by rw [← hD, ← ha]; rfl) hB
    exact ⟨_, _, h, h2, by simp [Server.address, hH, hPt], rfl⟩
  · have hc := searchLoop_congr env
      { substitute lc user password with GroupMappings := m, Conn := some conn }
      { substitute lc user password with Conn := some conn } conn user rfl
      (substitute lc user password).SearchBaseDns [] w2
    have h2 := iteration_search_error env user password { lc with GroupMappings := m } _ w w1 w2
      conn e g hm (by rw [← hD, ← ha]; rfl) hB (by rw [hg]; exact hc) hE
    exact ⟨_, _, h, h2, by simp [Server.address, hH, hPt], rfl⟩
  · have hc := searchLoop_congr env
      { substitute lc user password with GroupMappings := m, Conn := some conn }
      { substitute lc user password with Conn := some conn } conn user rfl
      (substitute lc user password).SearchBaseDns [] w2
    have h2 := iteration_success env user password { lc with GroupMappings := m } _ w w1 w2
      conn g hm (by rw [← hD, ← ha]; rfl) hB (by rw [hg]; exact hc) hE
    exact ⟨_, _, h, h2, by simp [Server.address, hH, hPt], rfl⟩

/-- The per-iteration copy after the loop body: the descriptor with the
credentials substituted, and the connection stored when the bind
succeeded. -/
theorem iteration_copy (user password : String) (lc : Server) (w : σ) :
    ∃ r, iteration env user password lc w = some r ∧
      (r.lc = substitute lc user password ∨
        ∃ conn, r.lc = { substitute lc user password with Conn := some conn }) := by
  rcases iteration_shape env user password lc w with
    ⟨w1, e, _, h⟩ | ⟨w1, conn, w2, e, _, _, h⟩ | ⟨w1, conn, w2, e, g, _, _, _, _, h⟩ |
    ⟨w1, conn, w2, g, _, _, _, _, h⟩
  · exact ⟨_, h, Or.inl rfl⟩
  · exact ⟨_, h, Or.inl rfl⟩
  · exact ⟨_, h, Or.inr ⟨conn, rfl⟩⟩
  · exact ⟨_, h, Or.inr ⟨conn, rfl⟩⟩

theorem runSpawned_total (tasks : List Task) :
    ∀ st : σ, ∃ res, runSpawned env tasks st = some res := by
  induction tasks with
  | nil => intro st; exact ⟨_, rfl⟩
  | cons t rest ih =>
    intro st
    obtain ⟨w2, evs, rs, h1, _⟩ := rangeServers_dials env t.user t.password t.cfg.Servers st
    obtain ⟨res, hres⟩ := ih w2
    exact ⟨(res.1, evs ++ res.2), by simp [runSpawned, Config.UpdatePermissions, h1, hres]⟩

theorem GetAttributeValue_memberOf (e : Entry) :
    e.GetAttributeValue "memberOf" = firstMemberOf e := by
  have key : ∀ l : List EntryAttribute,
      (match (match l.find? (fun a => a.Name == "memberOf") with
          | some a => a.Values
          | none => []) with
        | [] => ""
        | v :: _ => v) = firstMemberOfIn l := by
    intro l
    induction l with
    | nil => rfl
    | cons a rest ih =>
      by_cases h : a.Name = "memberOf"
      · simp [List.find?, firstMemberOfIn, h]
      · have hb : (a.Name == "memberOf") = false := by simp [h]
        rw [List.find?, hb]
        simp only [firstMemberOfIn, h, if_false]
        exact ih
  exact key e.Attributes

theorem searchRequest_subtree (s : Server) (username base : String) :
    s.searchRequest env username base =
      subtreeRequest base (env.Sprintf s.SearchFilter username) := by
  rfl

theorem collect_firstMemberOf (l : List (Res SearchResult)) :
    collect l = (l.map (fun a => a.entries.map firstMemberOf)).flatten := by
  induction l with
  | nil => rfl
  | cons a rest ih =>
    simp [collect, ih, GetAttributeValue_memberOf]

end Lemmas

/-! ## Theorems -/

/-- C5: on a bound descriptor, when the backend answers with success every
search for the bases of `SearchBaseDns`, asked in declared order with the
request the specification describes, `GetGroupsOfUser` returns a nil error;
it has issued exactly one search per element of `SearchBaseDns`, the i-th on
the i-th base, on the stored connection, with whole-subtree scope, aliases
never dereferenced, the filter `SearchFilter` with the username substituted
and the one attribute `memberOf`; and it returns, in base order and then
entry order and without removing duplicates, one string per returned entry,
the first `memberOf` value of the entry or the empty string when the entry
has none.  The length of the result is the total number of entries, so no
entry at all gives the empty sequence. -/
theorem GetGroupsOfUser_all_succeed {σ : Type} (env : Env σ) (s : Server) (conn : LdapConn)
    (username : String) (w : σ) (hconn : s.Conn = some conn)
    (hall : ∀ a ∈ answers env conn
        (s.SearchBaseDns.map (fun b => subtreeRequest b (env.Sprintf s.SearchFilter username))) w,
      a.isOk = true) :
    ∃ r, s.GetGroupsOfUser env username w = some r ∧ r.err = none ∧
      searches r.events = s.SearchBaseDns.map
        (fun b => (conn, subtreeRequest b (env.Sprintf s.SearchFilter username))) ∧
      (searches r.events).map (fun p => p.2.BaseDN) = s.SearchBaseDns ∧
      (searches r.events).length = s.SearchBaseDns.length ∧
      r.groups = ((answers env conn
        (s.SearchBaseDns.map (fun b => subtreeRequest b (env.Sprintf s.SearchFilter username)))
        w).map (fun a => a.entries.map firstMemberOf)).flatten ∧
      r.groups.length = entryCount (answers env conn
        (s.SearchBaseDns.map (fun b => subtreeRequest b (env.Sprintf s.SearchFilter username)))
        w) ∧
      (entryCount (answers env conn
        (s.SearchBaseDns.map (fun b => subtreeRequest b (env.Sprintf s.SearchFilter username)))
        w) = 0 → r.groups = []) := by
  have hreq : s.SearchBaseDns.map (s.searchRequest env username) =
      s.SearchBaseDns.map (fun b => subtreeRequest b (env.Sprintf s.SearchFilter username)) :=
    List.map_congr_left (fun b _ => searchRequest_subtree env s username b)
  have hpair : s.SearchBaseDns.map (fun b => (conn, s.searchRequest env username b)) =
      s.SearchBaseDns.map
        (fun b => (conn, subtreeRequest b (env.Sprintf s.SearchFilter username))) :=
    List.map_congr_left (fun b _ => by rw [searchRequest_subtree])
  rw [← hreq] at hall ⊢
  obtain ⟨h1, h2, h3⟩ := searchLoop_all_ok env s conn username s.SearchBaseDns [] w hall
  rw [hpair] at h3
  have h2b : (s.searchLoop env conn username s.SearchBaseDns [] w).groups =
      collect (answers env conn (s.SearchBaseDns.map (s.searchRequest env username)) w) := by
    simpa using h2
  refine ⟨_, GetGroupsOfUser_bound env s conn username w hconn, h1, h3, ?_, ?_, ?_, ?_, ?_⟩
  · rw [h3]; simp [subtreeRequest, Function.comp_def]
  · rw [h3]; simp
  · rw [h2b, collect_firstMemberOf]
  · rw [h2b]; simp [collect_length]
  · intro h0
    have hl : (s.searchLoop env conn username s.SearchBaseDns [] w).groups.length = 0 := by
      rw [h2b]; simp [collect_length, h0]
    exact List.length_eq_zero.mp hl

/-- Witness of C5 on the fake directory: two healthy bases, two entries under
each, the first with the values `cn=admins` and `cn=staff` for `memberOf`,
the second without `memberOf`; the result is written out. -/
theorem GetGroupsOfUser_all_succeed_witness :
    (∃ r, srvOkBound.GetGroupsOfUser fakeDir "alice" fakeOpen = some r ∧ r.err = none ∧
      searches r.events = srvOkBound.SearchBaseDns.map
        (fun b => (1, subtreeRequest b (fakeDir.Sprintf srvOkBound.SearchFilter "alice"))) ∧
      (searches r.events).map (fun p => p.2.BaseDN) = srvOkBound.SearchBaseDns ∧
      (searches r.events).length = srvOkBound.SearchBaseDns.length ∧
      r.groups = ((answers fakeDir 1
        (srvOkBound.SearchBaseDns.map
          (fun b => subtreeRequest b (fakeDir.Sprintf srvOkBound.SearchFilter "alice")))
        fakeOpen).map (fun a => a.entries.map firstMemberOf)).flatten ∧
      r.groups.length = entryCount (answers fakeDir 1
        (srvOkBound.SearchBaseDns.map
          (fun b => subtreeRequest b (fakeDir.Sprintf srvOkBound.SearchFilter "alice")))
        fakeOpen) ∧
      (entryCount (answers fakeDir 1
        (srvOkBound.SearchBaseDns.map
          (fun b => subtreeRequest b (fakeDir.Sprintf srvOkBound.SearchFilter "alice")))
        fakeOpen) = 0 → r.groups = [])) ∧
    ((answers fakeDir 1
        (srvOkBound.SearchBaseDns.map
          (fun b => subtreeRequest b (fakeDir.Sprintf srvOkBound.SearchFilter "alice")))
        fakeOpen).map (fun a => a.entries.map firstMemberOf)).flatten =
      ["cn=admins", "", "cn=admins", ""] ∧
    (srvOkBound.GetGroupsOfUser fakeDir "alice" fakeOpen).map
        (fun r => (r.groups, r.err, (searches r.events).map (fun p => (p.1, p.2.BaseDN)))) =
      some (["cn=admins", "", "cn=admins", ""], none, [(1, "ou=people"), (1, "ou=staff")]) :=
  ⟨GetGroupsOfUser_all_succeed fakeDir srvOkBound 1 "alice" fakeOpen rfl (by decide),
    by decide, by decide⟩

/-- C6: on a bound descriptor, when the search on the base at index `i` is
the first one the backend answers with an error, `GetGroupsOfUser` has
issued the searches for the bases `0..i` and no other, returns that error,
and returns with it the values of the answers to the bases `0..i-1` only. -/
theorem GetGroupsOfUser_first_failure {σ : Type} (env : Env σ) (s : Server) (conn : LdapConn)
    (username : String) (w : σ) (i : Nat) (e : String) (hconn : s.Conn = some conn)
    (hfail : (answers env conn (s.SearchBaseDns.map (s.searchRequest env username)) w)[i]? =
      some (Res.error e))
    (hprev : ∀ a ∈ (answers env conn (s.SearchBaseDns.map (s.searchRequest env username)) w).take i,
      a.isOk = true) :
    ∃ r, s.GetGroupsOfUser env username w = some r ∧ r.err = some e ∧
      searches r.events =
        (s.SearchBaseDns.take (i + 1)).map (fun b => (conn, s.searchRequest env username b)) ∧
      (searches r.events).length = i + 1 ∧
      r.groups = collect
        ((answers env conn (s.SearchBaseDns.map (s.searchRequest env username)) w).take i) := by
  obtain ⟨h1, h2, h3⟩ :=
    searchLoop_first_fail env s conn username s.SearchBaseDns [] w i e hfail hprev
  have hlen : i < s.SearchBaseDns.length := by
    have hi := (List.getElem?_eq_some_iff.mp hfail).1
    have hl : ∀ (reqs : List SearchRequest) (w0 : σ),
        (answers env conn reqs w0).length = reqs.length := by
      intro reqs
      induction reqs with
      | nil => intro w0; rfl
      | cons q rest ih => intro w0; simp [answers, ih]
    rw [hl] at hi
    simpa using hi
  refine ⟨_, GetGroupsOfUser_bound env s conn username w hconn, h1, h3, ?_, ?_⟩
  · rw [h3]; simp; omega
  · simpa using h2

/-- Witness of C6 on the fake directory: three bases, the second fails. -/
theorem GetGroupsOfUser_first_failure_witness :
    ∃ r, srvBrokenBound.GetGroupsOfUser fakeDir "alice" fakeOpen = some r ∧
      r.err = some "No Such Object" ∧
      searches r.events = (srvBrokenBound.SearchBaseDns.take (1 + 1)).map
        (fun b => (1, srvBrokenBound.searchRequest fakeDir "alice" b)) ∧
      (searches r.events).length = 1 + 1 ∧
      r.groups = collect ((answers fakeDir 1
        (srvBrokenBound.SearchBaseDns.map (srvBrokenBound.searchRequest fakeDir "alice"))
        fakeOpen).take 1) :=
  GetGroupsOfUser_first_failure fakeDir srvBrokenBound 1 "alice" fakeOpen 1 "No Such Object" rfl
    (by decide) (by decide)


/-- C1, at the failing input: on the registry of a descriptor whose second of
three search bases fails followed by a healthy descriptor, both connections
are dialled and bound, the third base of the first descriptor is never
searched, the connection of the second descriptor is closed once, and the
connection of the first is never closed: it is still open in the directory
when `UpdatePermissions` has returned. -/
theorem session_leaked_on_search_failure :
    boundConns (runEffects
      (Config.UpdatePermissions fakeDir ⟨[srvBroken, srvOk]⟩ "alice" "pw" ⟨0, []⟩)) = [1, 2] ∧
    (searches (runEffects
      (Config.UpdatePermissions fakeDir ⟨[srvBroken, srvOk]⟩ "alice" "pw" ⟨0, []⟩))).map
        (fun p => (p.1, p.2.BaseDN)) =
      [(1, "ou=people"), (1, "ou=broken"), (2, "ou=people"), (2, "ou=staff")] ∧
    closeCount 1 (runEffects
      (Config.UpdatePermissions fakeDir ⟨[srvBroken, srvOk]⟩ "alice" "pw" ⟨0, []⟩)) = 0 ∧
    closeCount 2 (runEffects
      (Config.UpdatePermissions fakeDir ⟨[srvBroken, srvOk]⟩ "alice" "pw" ⟨0, []⟩)) = 1 ∧
    (Config.UpdatePermissions fakeDir ⟨[srvBroken, srvOk]⟩ "alice" "pw" ⟨0, []⟩).map
      (fun out => out.st.live) = some [1] := by
  decide

/-- C3, counterexample: on a descriptor with static `User` and `Password`
the filter of the search is built from the caller-supplied username, so two
callers give two different filters, and neither is the filter built from the
static `User`. -/
theorem override_filter_follows_caller :
    srvStatic.User ≠ "" ∧ srvStatic.Password ≠ "" ∧
    searchFilters (runEffects
      (Config.UpdatePermissions fakeDir ⟨[srvStatic]⟩ "alice" "a1" ⟨0, []⟩)) = ["(uid=alice)"] ∧
    searchFilters (runEffects
      (Config.UpdatePermissions fakeDir ⟨[srvStatic]⟩ "bob" "b2" ⟨0, []⟩)) = ["(uid=bob)"] ∧
    fakeDir.Sprintf srvStatic.SearchFilter srvStatic.User = "(uid=svc)" := by
  decide

/-- C3, amended: on a descriptor with static `User` and `Password` both set,
two runs of the loop body from the same backend state with two caller
credential pairs dial the same address and bind with the same DN and
password, the DN being `BindDn` with the static `User` substituted and the
password the static `Password`; the filter of every search is `SearchFilter`
with the username of the caller of that run substituted. -/
theorem override_binds_static {σ : Type} (env : Env σ) (lc : Server)
    (hU : lc.User ≠ "") (_hP : lc.Password ≠ "")
    (user1 password1 user2 password2 : String) (w : σ) :
    ∃ r1 r2, iteration env user1 password1 lc w = some r1 ∧
      iteration env user2 password2 lc w = some r2 ∧
      dialAttempts r1.events = dialAttempts r2.events ∧
      bindCredentials r1.events = bindCredentials r2.events ∧
      (∀ p ∈ bindCredentials r1.events, p = (env.Sprintf lc.BindDn lc.User, lc.Password)) ∧
      (∀ f ∈ searchFilters r1.events, f = env.Sprintf lc.SearchFilter user1) ∧
      (∀ f ∈ searchFilters r2.events, f = env.Sprintf lc.SearchFilter user2) := by
  have hn : ¬ (lc.User = "" ∧ lc.Password = "") := fun h => hU h.1
  obtain ⟨r1, h1, _, _, hok1, herr1, hf1⟩ := iteration_binds env user1 password1 lc w
  obtain ⟨r2, h2, _, _, hok2, herr2, hf2⟩ := iteration_binds env user2 password2 lc w
  obtain ⟨q1, hq1, hd1⟩ := iteration_dials env user1 password1 lc w
  obtain ⟨q2, hq2, hd2⟩ := iteration_dials env user2 password2 lc w
  have e1 : q1 = r1 := Option.some.inj (hq1.symm.trans h1)
  have e2 : q2 = r2 := Option.some.inj (hq2.symm.trans h2)
  subst e1 e2
  rw [substitute_static lc user1 password1 hn] at hok1
  rw [substitute_static lc user2 password2 hn] at hok2
  refine ⟨q1, q2, h1, h2, by rw [hd1, hd2], ?_, ?_, ?_, ?_⟩
  · cases hD : (env.Dial w "tcp" lc.address).2 with
    | ok c => rw [hok1 c hD, hok2 c hD]
    | error e => rw [herr1 e hD, herr2 e hD]
  · intro p hp
    cases hD : (env.Dial w "tcp" lc.address).2 with
    | ok c => rw [hok1 c hD] at hp; simpa using hp
    | error e => rw [herr1 e hD] at hp; simp at hp
  · intro f hf
    simp only [searchFilters, List.mem_map] at hf
    obtain ⟨p, hp, rfl⟩ := hf
    exact hf1 p hp
  · intro f hf
    simp only [searchFilters, List.mem_map] at hf
    obtain ⟨p, hp, rfl⟩ := hf
    exact hf2 p hp

/-- Witness of C3 amended, on the fake directory and the descriptor with the
static credentials `svc` and `svcpw`. -/
theorem override_binds_static_witness :
    srvStatic.User ≠ "" ∧ srvStatic.Password ≠ "" ∧
    ∃ r1 r2, iteration fakeDir "alice" "a1" srvStatic ⟨0, []⟩ = some r1 ∧
      iteration fakeDir "bob" "b2" srvStatic ⟨0, []⟩ = some r2 ∧
      dialAttempts r1.events = dialAttempts r2.events ∧
      bindCredentials r1.events = bindCredentials r2.events ∧
      (∀ p ∈ bindCredentials r1.events,
        p = (fakeDir.Sprintf srvStatic.BindDn srvStatic.User, srvStatic.Password)) ∧
      (∀ f ∈ searchFilters r1.events, f = fakeDir.Sprintf srvStatic.SearchFilter "alice") ∧
      (∀ f ∈ searchFilters r2.events, f = fakeDir.Sprintf srvStatic.SearchFilter "bob") :=
  ⟨by decide, by decide,
    override_binds_static fakeDir srvStatic (by decide) (by decide) "alice" "a1" "bob" "b2"
      ⟨0, []⟩⟩

/-- C4: the credentials the loop body works with, kept in the per-iteration
copy, are the caller-supplied pair when `User` and `Password` of the
descriptor are both empty, and the descriptor's own pair, unchanged, in every
other case, also when exactly one of the two is empty; so they equal the
caller-supplied pair exactly when both are empty or the descriptor's own
pair is that very pair.  Every bind of the run uses `BindDn` with that user
substituted and that password, and there is such a bind whenever the dial
succeeds. -/
theorem effective_credentials {σ : Type} (env : Env σ) (lc : Server) (user password : String)
    (w : σ) :
    ∃ r, iteration env user password lc w = some r ∧
      ((lc.User = "" ∧ lc.Password = "") → r.lc.User = user ∧ r.lc.Password = password) ∧
      (¬ (lc.User = "" ∧ lc.Password = "") →
        r.lc.User = lc.User ∧ r.lc.Password = lc.Password) ∧
      ((r.lc.User = user ∧ r.lc.Password = password) ↔
        ((lc.User = "" ∧ lc.Password = "") ∨ (lc.User = user ∧ lc.Password = password))) ∧
      (∀ p ∈ bindCredentials r.events, p = (env.Sprintf lc.BindDn r.lc.User, r.lc.Password)) ∧
      (∀ c, (env.Dial w "tcp" lc.address).2 = Res.ok c →
        bindCredentials r.events = [(env.Sprintf lc.BindDn r.lc.User, r.lc.Password)]) := by
  obtain ⟨r, h, hu, hp, hok, herr, _⟩ := iteration_binds env user password lc w
  refine ⟨r, h, ?_, ?_, ?_, ?_, ?_⟩
  · intro hb
    rw [hu, hp]
    exact substitute_empty lc user password hb
  · intro hn
    rw [hu, hp, substitute_static lc user password hn]
    exact ⟨rfl, rfl⟩
  · rw [hu, hp]
    by_cases hb : lc.User = "" ∧ lc.Password = ""
    · have := substitute_empty lc user password hb
      simp [this, hb]
    · rw [substitute_static lc user password hb]
      simp [hb]
  · intro p hpm
    rw [hu, hp]
    cases hD : (env.Dial w "tcp" lc.address).2 with
    | ok c => rw [hok c hD] at hpm; simpa using hpm
    | error e => rw [herr e hD] at hpm; simp at hpm
  · intro c hD
    rw [hu, hp]
    exact hok c hD


/-- C7: `ApiLogin`, on a fresh response writer, answers with status 400 and
the error text as body, and starts no task, exactly when reading the body or
decoding it into a `Login` gives an error; otherwise it starts exactly one
`UpdatePermissions` task, with the decoded user and password, and answers
with status 204 and an empty body.  The answer is the same whatever backend
the started task then runs against, and the task itself never panics. -/
theorem ApiLogin_answer (Unmarshal : String → Login → Login × Option String) (cfg : Config)
    (r : Request) :
    (∀ e, payloadError Unmarshal r = some e →
      (cfg.ApiLogin Unmarshal ⟨none, ""⟩ r).w = ⟨some 400, e⟩ ∧
      (cfg.ApiLogin Unmarshal ⟨none, ""⟩ r).spawned = []) ∧
    (payloadError Unmarshal r = none →
      ∃ body, r.Body = Res.ok body ∧
        (cfg.ApiLogin Unmarshal ⟨none, ""⟩ r).w = ⟨some 204, ""⟩ ∧
        (cfg.ApiLogin Unmarshal ⟨none, ""⟩ r).spawned =
          [⟨cfg, (Unmarshal body ⟨"", ""⟩).1.User, (Unmarshal body ⟨"", ""⟩).1.Password⟩]) ∧
    ((cfg.ApiLogin Unmarshal ⟨none, ""⟩ r).w.status = some 400 ↔
      payloadError Unmarshal r ≠ none) ∧
    ((cfg.ApiLogin Unmarshal ⟨none, ""⟩ r).spawned = [] ↔ payloadError Unmarshal r ≠ none) ∧
    (∀ (σ1 σ2 : Type) (env1 : Env σ1) (env2 : Env σ2) (st1 : σ1) (st2 : σ2),
      (serveLogin env1 Unmarshal cfg r st1).1 = (serveLogin env2 Unmarshal cfg r st2).1 ∧
      ∃ res, (serveLogin env1 Unmarshal cfg r st1).2 = some res) := by
  have key : ∀ (σ1 : Type) (env1 : Env σ1) (st1 : σ1),
      ∃ res, (serveLogin env1 Unmarshal cfg r st1).2 = some res := by
    intro σ1 env1 st1
    exact runSpawned_total env1 _ st1
  cases hb : r.Body with
  | error err =>
    refine ⟨?_, ?_, ?_, ?_, ?_⟩
    · intro e he
      simp [payloadError, hb] at he
      subst he
      simp [Config.ApiLogin, hb, ResponseWriter.WriteHeader, ResponseWriter.Write]
    · intro hn; simp [payloadError, hb] at hn
    · simp [Config.ApiLogin, payloadError, hb, ResponseWriter.WriteHeader, ResponseWriter.Write]
    · simp [Config.ApiLogin, payloadError, hb]
    · intro σ1 σ2 env1 env2 st1 st2
      exact ⟨rfl, key σ1 env1 st1⟩
  | ok body =>
    cases hu : Unmarshal body ⟨"", ""⟩ with
    | mk login oerr =>
      cases oerr with
      | some err =>
        refine ⟨?_, ?_, ?_, ?_, ?_⟩
        · intro e he
          simp [payloadError, hb, hu] at he
          subst he
          simp [Config.ApiLogin, hb, hu, ResponseWriter.WriteHeader, ResponseWriter.Write]
        · intro hn; simp [payloadError, hb, hu] at hn
        · simp [Config.ApiLogin, payloadError, hb, hu, ResponseWriter.WriteHeader,
            ResponseWriter.Write]
        · simp [Config.ApiLogin, payloadError, hb, hu]
        · intro σ1 σ2 env1 env2 st1 st2
          exact ⟨rfl, key σ1 env1 st1⟩
      | none =>
        refine ⟨?_, ?_, ?_, ?_, ?_⟩
        · intro e he
          simp [payloadError, hb, hu] at he
        · intro _
          exact ⟨body, rfl, by simp [Config.ApiLogin, hb, hu, ResponseWriter.WriteHeader]⟩
        · simp [Config.ApiLogin, payloadError, hb, hu, ResponseWriter.WriteHeader]
        · simp [Config.ApiLogin, payloadError, hb, hu]
        · intro σ1 σ2 env1 env2 st1 st2
          exact ⟨rfl, key σ1 env1 st1⟩

/-- C8, counterexample: the resolved groups of the healthy descriptor are
`cn=admins` and the empty string, twice each; the translation the
specification describes gives the pair (1, 2) with the configured table and
the pair (7, 9) with another table, but `UpdatePermissions` performs the same
effects with both tables, and what it puts out for the groups is one log
line per group, the unmatched empty string included. -/
theorem groups_not_translated :
    mappedPairs ["cn=admins", "", "cn=admins", ""] srvOk.GroupMappings = [(1, 2)] ∧
    mappedPairs ["cn=admins", "", "cn=admins", ""] [⟨"cn=admins", 7, 9⟩] = [(7, 9)] ∧
    runEffects (Config.UpdatePermissions fakeDir
        ⟨[{ srvOk with GroupMappings := [⟨"cn=admins", 7, 9⟩] }]⟩ "alice" "pw" ⟨0, []⟩) =
      runEffects (Config.UpdatePermissions fakeDir ⟨[srvOk]⟩ "alice" "pw" ⟨0, []⟩) ∧
    logLines (runEffects (Config.UpdatePermissions fakeDir ⟨[srvOk]⟩ "alice" "pw" ⟨0, []⟩)) =
      [("[debug] user authenticating %v", [LogArg.str "alice"]),
       ("[debug] len %v", [LogArg.int 2]),
       ("[debug] len %v", [LogArg.int 2]),
       ("[debug] %v", [LogArg.str "cn=admins"]),
       ("[debug] %v", [LogArg.str ""]),
       ("[debug] %v", [LogArg.str "cn=admins"]),
       ("[debug] %v", [LogArg.str ""])] := by
  decide

/-- C8, amended: the loop body never consults `GroupMappings`: with any other
mapping table it performs the same effects and leaves the backend in the same
state; when the resolution of the descriptor succeeds, what it puts out after
closing the connection is one debug log line per resolved group identifier,
in order and untranslated, a function of the resolved groups alone. -/
theorem groups_logged_untranslated {σ : Type} (env : Env σ) (lc : Server)
    (user password : String) (w : σ) :
    ∃ r, iteration env user password lc w = some r ∧
      (∀ m : List GroupMapping, ∃ r2,
        iteration env user password { lc with GroupMappings := m } w = some r2 ∧
        r2.events = r.events ∧ r2.st = r.st) ∧
      (∀ (w1 w2 : σ) (conn : LdapConn) (g : GroupsOut σ),
        env.Dial w "tcp" lc.address = (w1, Res.ok conn) →
        env.Bind w1 conn
          (env.Sprintf (substitute lc user password).BindDn (substitute lc user password).User)
          (substitute lc user password).Password = (w2, none) →
        Server.GetGroupsOfUser env { substitute lc user password with Conn := some conn } user w2 =
          some g →
        g.err = none →
        ∃ before, r.events = before ++ [Event.close conn] ++
          g.groups.map (fun attr => Event.log "[debug] %v" [LogArg.str attr])) := by
  obtain ⟨r, _, h, _⟩ := iteration_mappings env user password lc w []
  refine ⟨r, h, ?_, ?_⟩
  · intro m
    obtain ⟨q, r2, hq, h2, he, hs⟩ := iteration_mappings env user password lc w m
    have e1 : q = r := Option.some.inj (hq.symm.trans h)
    subst e1
    exact ⟨r2, h2, he, hs⟩
  · intro w1 w2 conn g hD hB hG hE
    have ha := substitute_address lc user password
    rw [GetGroupsOfUser_bound env _ conn user w2 rfl] at hG
    have hg := Option.some.inj hG
    have h2 := iteration_success env user password lc _ w w1 w2 conn g rfl
      (by rw [ha]; exact hD) hB hg hE
    have e1 := Option.some.inj (h.symm.trans h2)
    subst e1
    exact ⟨_, rfl⟩

/-- C9: whatever the backend answers, `UpdatePermissions` returns and leaves
the configuration as it was: every descriptor of the registry is the same
afterwards, in all its fields.  Each iteration changed only its own copy,
which ends as the descriptor with the credentials substituted, with or
without a stored connection. -/
theorem UpdatePermissions_preserves_registry {σ : Type} (env : Env σ) (cfg : Config)
    (user password : String) (w : σ) :
    ∃ out, cfg.UpdatePermissions env user password w = some out ∧
      out.cfg = cfg ∧ out.cfg.Servers = cfg.Servers ∧
      (∀ (i : Nat) (s : Server), cfg.Servers[i]? = some s → out.cfg.Servers[i]? = some s) ∧
      ∃ rs : List (IterOut σ),
        List.Forall₂ (fun s r => (∃ w0, iteration env user password s w0 = some r) ∧
          (r.lc = substitute s user password ∨
            ∃ conn, r.lc = { substitute s user password with Conn := some conn }))
          cfg.Servers rs := by
  obtain ⟨w2, evs, rs, h1, _, h3, _⟩ := rangeServers_dials env user password cfg.Servers w
  refine ⟨⟨cfg, w2, evs⟩, ?_, rfl, rfl, fun i s h => h, rs, ?_⟩
  · simp [Config.UpdatePermissions, h1]
  · refine List.Forall₂.imp ?_ h3
    intro s r hsr
    obtain ⟨w0, hw0⟩ := hsr
    obtain ⟨q, hq, hc⟩ := iteration_copy env user password s w0
    have e1 : q = r := Option.some.inj (hq.symm.trans hw0)
    subst e1
    exact ⟨⟨w0, hq⟩, hc⟩

/-- C10, counterexample: the descriptor configures `isMemberOf` as its
membership attribute, yet the request asks for `memberOf`, a name that is
not in the attribute mapping at all, and the entry of user `carol`, which
holds her group under `isMemberOf`, is read as the empty string. -/
theorem requested_attribute_is_fixed :
    srvStaticBound.Attributes = [("member_of", "isMemberOf")] ∧
    (srvStaticBound.searchRequest fakeDir "carol" "ou=people").Attributes = ["memberOf"] ∧
    "memberOf" ∉ srvStaticBound.Attributes.map Prod.snd ∧
    "memberOf" ∉ srvStaticBound.Attributes.map Prod.fst ∧
    (fakeDir.Search fakeOpen 1 (srvStaticBound.searchRequest fakeDir "carol" "ou=people")).2 =
      Res.ok ⟨[⟨"uid=carol,ou=people", [⟨"isMemberOf", ["cn=admins"]⟩]⟩]⟩ ∧
    (srvStaticBound.GetGroupsOfUser fakeDir "carol" fakeOpen).map (fun r => (r.groups, r.err)) =
      some ([""], none) := by
  decide

/-- C10, amended: on a bound descriptor every search request of
`GetGroupsOfUser` is for one of the configured bases, with whole-subtree
scope, aliases never dereferenced, the filter `SearchFilter` with the
username substituted, and exactly one requested attribute, the fixed name
`memberOf`; the attribute mapping `Attributes` of the descriptor is not
consulted, and the value read from each returned entry is the one of that
same fixed name `memberOf`. -/
theorem GetGroupsOfUser_requests {σ : Type} (env : Env σ) (s : Server) (conn : LdapConn)
    (username : String) (w : σ) (hconn : s.Conn = some conn) :
    ∃ r, s.GetGroupsOfUser env username w = some r ∧
      (∀ p ∈ searches r.events, p.1 = conn ∧ p.2.BaseDN ∈ s.SearchBaseDns ∧
        p.2.Scope = Scope.ScopeWholeSubtree ∧
        p.2.DerefAliases = DerefAliases.NeverDerefAliases ∧
        p.2.Filter = env.Sprintf s.SearchFilter username ∧
        p.2.Attributes = ["memberOf"]) ∧
      (∀ a : List (String × String),
        Server.GetGroupsOfUser env { s with Attributes := a } username w = some r) ∧
      r.groups = collect
        ((answers env conn (s.SearchBaseDns.map (s.searchRequest env username)) w).takeWhile
          Res.isOk) := by
  refine ⟨_, GetGroupsOfUser_bound env s conn username w hconn, ?_, ?_, ?_⟩
  · intro p hp
    obtain ⟨b, hb, hpb⟩ := searchLoop_filters env s conn username s.SearchBaseDns [] w p hp
    subst hpb
    simp [Server.searchRequest, NewSearchRequest, hb]
  · intro a
    rw [GetGroupsOfUser_bound env { s with Attributes := a } conn username w hconn]
    rw [searchLoop_congr env { s with Attributes := a } s conn username rfl]
  · simpa using searchLoop_groups env s conn username s.SearchBaseDns [] w

/-- Witness of C10 amended, on the fake directory and the bound descriptor
with static credentials. -/
theorem GetGroupsOfUser_requests_witness :
    ∃ r, srvStaticBound.GetGroupsOfUser fakeDir "carol" fakeOpen = some r ∧
      (∀ p ∈ searches r.events, p.1 = 1 ∧ p.2.BaseDN ∈ srvStaticBound.SearchBaseDns ∧
        p.2.Scope = Scope.ScopeWholeSubtree ∧
        p.2.DerefAliases = DerefAliases.NeverDerefAliases ∧
        p.2.Filter = fakeDir.Sprintf srvStaticBound.SearchFilter "carol" ∧
        p.2.Attributes = ["memberOf"]) ∧
      (∀ a : List (String × String),
        Server.GetGroupsOfUser fakeDir { srvStaticBound with Attributes := a } "carol" fakeOpen =
          some r) ∧
      r.groups = collect
        ((answers fakeDir 1
          (srvStaticBound.SearchBaseDns.map (srvStaticBound.searchRequest fakeDir "carol"))
          fakeOpen).takeWhile Res.isOk) :=
  GetGroupsOfUser_requests fakeDir srvStaticBound 1 "carol" fakeOpen rfl

end Gcontrol
